import Mathlib

/-!
Verification of the grid-based wave-propagation engine of rafael1mc/go-wave
(the leapfrog / two-snapshot variant in `_mainv15.go`).

The Go code is embedded shallowly:
* `float64` heights are modelled as exact rationals `ℚ`;
* the nested slices `current`, `previous`, `mask` are modelled as total
  functions `ℕ → ℕ → ℚ` / `ℕ → ℕ → Bool`, indexed `[y][x]` as in the source;
* the in-place double loop of `update` is a left fold over the row-major list
  of interior cells, each step rewriting the two touched entries, exactly as
  the Go code mutates its arrays;
* Go's `int(f)` float-to-int conversion (truncation toward zero) is
  `truncZero`;
* `math.Sqrt(d) < r` in `pointInShape` is modelled by the equivalent
  (for nonnegative `d`, `r`) comparison of squares, avoiding irrational
  square roots.

The lattice dimensions are the source constants `gridWidth = 1200` and
`gridHeight = 800`; the sweep and excitation routines are stated over
arbitrary dimensions `W H` (the source instance is the pair
`gridWidth gridHeight`), matching the spec's parametric lattice.
-/

namespace GoWave

/-- Source constant `screenWidth = 1200`. -/
def screenWidth : ℕ := 1200

/-- Source constant `screenHeight = 800`. -/
def screenHeight : ℕ := 800

/-- Source constant `gridSize = 1`. -/
def gridSize : ℕ := 1

/-- Source constant `gridWidth = screenWidth / gridSize`. -/
def gridWidth : ℕ := screenWidth / gridSize

/-- Source constant `gridHeight = screenHeight / gridSize`. -/
def gridHeight : ℕ := screenHeight / gridSize

/-- Source constant `waveSpeed = 0.25`. -/
def waveSpeed : ℚ := 1/4

/-- Source constant `damping = 0.995`. -/
def damping : ℚ := 199/200

/-- The state of `WaveGrid` from the source: current and previous height
fields and the boundary mask, all indexed `[y][x]`. -/
@[ext]
structure WaveGrid where
  current : ℕ → ℕ → ℚ
  previous : ℕ → ℕ → ℚ
  mask : ℕ → ℕ → Bool

/-- Point update of a doubly indexed field: the Go assignment `f[y][x] = v`. -/
def upd2 (f : ℕ → ℕ → ℚ) (y x : ℕ) (v : ℚ) : ℕ → ℕ → ℚ :=
  fun y' x' => if y' = y ∧ x' = x then v else f y' x'

/-- Source `pointInShape`: distance from the circle center
`(screenWidth/2, screenHeight/2)` strictly below radius `150`, stated on
squares (equivalent to the source's `math.Sqrt(dx*dx+dy*dy) < radius`). -/
def pointInShape (px py : ℚ) : Bool :=
  let cx : ℕ := screenWidth / 2
  let cy : ℕ := screenHeight / 2
  let radius : ℚ := 150
  let dx : ℚ := px - (cx : ℚ)
  let dy : ℚ := py - (cy : ℚ)
  decide (dx * dx + dy * dy < radius * radius)

/-- Source `initializeMask`: `mask[y][x] = pointInShape(x*gridSize, y*gridSize)`
for every cell; each entry is independent of the others, so the double loop
is a direct function definition. -/
def initializeMask : ℕ → ℕ → Bool :=
  fun y x => pointInShape ((x * gridSize : ℕ) : ℚ) ((y * gridSize : ℕ) : ℚ)

/-- Source `NewWaveGrid`: zero-initialized height fields and the circular
mask at the source dimensions. -/
def newWaveGrid : WaveGrid :=
  { current := fun _ _ => 0
    previous := fun _ _ => 0
    mask := initializeMask }

/-- Construction with an arbitrary shape predicate, the spec's
`Construct(width, height, shapeMaskFn, ...)`: zero-initialized height fields
and the given mask. `newWaveGrid` is the source's instance of this with the
circular mask. -/
def constructGrid (m : ℕ → ℕ → Bool) : WaveGrid :=
  { current := fun _ _ => 0
    previous := fun _ _ => 0
    mask := m }

/-- Go's `int(f)` conversion of a `float64`: truncation toward zero. -/
def truncZero (q : ℚ) : ℤ :=
  if 0 ≤ q then Int.floor q else Int.ceil q

/-- Source `addWave(mx, my)`: map the click position to a cell by dividing by
`gridSize` and truncating; if the cell is in range and masked, add `20.0` to
its current height, else do nothing. -/
def addWave (W H : ℕ) (wg : WaveGrid) (mx my : ℚ) : WaveGrid :=
  let gridX : ℤ := truncZero (mx / (gridSize : ℚ))
  let gridY : ℤ := truncZero (my / (gridSize : ℚ))
  if 0 ≤ gridX ∧ gridX < (W : ℤ) ∧ 0 ≤ gridY ∧ gridY < (H : ℤ) ∧
      wg.mask gridY.toNat gridX.toNat then
    let newCur := upd2 wg.current gridY.toNat gridX.toNat
      (wg.current gridY.toNat gridX.toNat + 20)
    { wg with current := newCur }
  else wg

/-- The neighbor offset list of `update`: `{0,-1}, {0,1}, {-1,0}, {1,0}`
as `(dx, dy)` pairs. -/
def neighborOffsets : List (ℤ × ℤ) := [(0, -1), (0, 1), (-1, 0), (1, 0)]

/-- The neighbor loop of `update`: accumulates the `laplacian` sum and the
`numNeighbors` count over the four offsets, adding `cur[ny][nx]` for an
in-lattice masked neighbor and `-cur[y][x]` for an in-lattice unmasked one,
skipping out-of-lattice neighbors. -/
def lapStep (W H : ℕ) (cur : ℕ → ℕ → ℚ) (m : ℕ → ℕ → Bool) (y x : ℕ)
    (acc : ℚ × ℕ) (n : ℤ × ℤ) : ℚ × ℕ :=
  let nx : ℤ := (x : ℤ) + n.1
  let ny : ℤ := (y : ℤ) + n.2
  if 0 ≤ nx ∧ nx < (W : ℤ) ∧ 0 ≤ ny ∧ ny < (H : ℤ) then
    if m ny.toNat nx.toNat then
      (acc.1 + cur ny.toNat nx.toNat, acc.2 + 1)
    else
      (acc.1 - cur y x, acc.2 + 1)
  else acc

def lapAndCount (W H : ℕ) (cur : ℕ → ℕ → ℚ) (m : ℕ → ℕ → Bool) (y x : ℕ) :
    ℚ × ℕ :=
  neighborOffsets.foldl (lapStep W H cur m y x) (0, 0)

/-- The Laplacian value `update` feeds into the height formula:
the accumulated neighbor sum minus `numNeighbors * cur[y][x]`. -/
def laplacianAt (W H : ℕ) (cur : ℕ → ℕ → ℚ) (m : ℕ → ℕ → Bool) (y x : ℕ) : ℚ :=
  (lapAndCount W H cur m y x).1 -
    ((lapAndCount W H cur m y x).2 : ℚ) * cur y x

/-- The body of `update`'s double loop at one cell: skip unmasked cells;
otherwise compute `newHeight = damping * (2*cur - prev + c² * laplacian)`
from the present (partly rewritten) state and write
`previous[y][x] := cur[y][x]`, `current[y][x] := newHeight` in place. -/
def cellStep (W H : ℕ) (wg : WaveGrid) (y x : ℕ) : WaveGrid :=
  if wg.mask y x then
    let lap := laplacianAt W H wg.current wg.mask y x
    let newHeight :=
      damping * (2 * wg.current y x - wg.previous y x +
        waveSpeed * waveSpeed * lap)
    { current := upd2 wg.current y x newHeight
      previous := upd2 wg.previous y x (wg.current y x)
      mask := wg.mask }
  else wg

/-- The double loop of `update`: `y` from `1` to `H-2` outside, `x` from `1`
to `W-2` inside, applying `cellStep` in place in row-major order. -/
def sweep (W H : ℕ) (wg : WaveGrid) : WaveGrid :=
  ((List.range (H - 2)).map (· + 1)).foldl (fun s y =>
    ((List.range (W - 2)).map (· + 1)).foldl (fun s2 x => cellStep W H s2 y x) s)
    wg

/-- The first border loop of `update`: `current[0][x] = 0` and
`current[H-1][x] = 0` for every `x < W`. -/
def zeroTopBottom (W H : ℕ) (wg : WaveGrid) : WaveGrid :=
  (List.range W).foldl (fun s x =>
    { s with current := upd2 (upd2 s.current 0 x 0) (H - 1) x 0 }) wg

/-- The second border loop of `update`: `current[y][0] = 0` and
`current[y][W-1] = 0` for every `y < H`. -/
def zeroLeftRight (W H : ℕ) (wg : WaveGrid) : WaveGrid :=
  (List.range H).foldl (fun s y =>
    { s with current := upd2 (upd2 s.current y 0 0) y (W - 1) 0 }) wg

/-- Source `update`: the in-place interior sweep followed by the two border
zeroing loops. -/
def update (W H : ℕ) (wg : WaveGrid) : WaveGrid :=
  zeroLeftRight W H (zeroTopBottom W H (sweep W H wg))

/-- The sweep the spec demands in claim C1, written from the spec's words:
every interior masked cell's new height is computed from the fully settled
prior state (never from values rewritten earlier in the same sweep), then the
same border zeroing is applied. Used only to compare `update` against it. -/
def updateBuffered (W H : ℕ) (wg : WaveGrid) : WaveGrid :=
  let stepped : WaveGrid :=
    { current := fun y x =>
        if 1 ≤ y ∧ y < H - 1 ∧ 1 ≤ x ∧ x < W - 1 ∧ wg.mask y x then
          damping * (2 * wg.current y x - wg.previous y x +
            waveSpeed * waveSpeed * laplacianAt W H wg.current wg.mask y x)
        else wg.current y x
      previous := fun y x =>
        if 1 ≤ y ∧ y < H - 1 ∧ 1 ≤ x ∧ x < W - 1 ∧ wg.mask y x then
          wg.current y x
        else wg.previous y x
      mask := wg.mask }
  zeroLeftRight W H (zeroTopBottom W H stepped)

/-- The Laplacian claim C2 states, written from the spec's words: an
in-lattice masked neighbor contributes `cur[n] - cur[c]`, a wall or
out-of-lattice neighbor contributes `-cur[c]`, and the accumulator is divided
by the number of neighbors considered. Used only to compare `laplacianAt`
against it. -/
def lapClaim (W H : ℕ) (cur : ℕ → ℕ → ℚ) (m : ℕ → ℕ → Bool) (y x : ℕ) : ℚ :=
  let s := neighborOffsets.foldl (fun acc n =>
    let nx : ℤ := (x : ℤ) + n.1
    let ny : ℤ := (y : ℤ) + n.2
    if 0 ≤ nx ∧ nx < (W : ℤ) ∧ 0 ≤ ny ∧ ny < (H : ℤ) ∧ m ny.toNat nx.toNat then
      (acc.1 + (cur ny.toNat nx.toNat - cur y x), acc.2 + 1)
    else
      (acc.1 - cur y x, acc.2 + 1)) ((0 : ℚ), (0 : ℕ))
  s.1 / (s.2 : ℚ)

/-- The excitation contribution claim C5 states, written from the spec's
words: `strength * (1 - d/radius)²` at Euclidean distance `d` from the
center. Used only to compare `addWave` against it. -/
def exciteContribution (strength radius d : ℚ) : ℚ :=
  strength * (1 - d / radius) ^ 2

/-- One driver action: an excitation (`addWave`) or a step (`update`). -/
inductive Op where
  | excite (mx my : ℚ) : Op
  | step : Op

/-- Apply one driver action. -/
def applyOp (W H : ℕ) (wg : WaveGrid) : Op → WaveGrid
  | Op.excite mx my => addWave W H wg mx my
  | Op.step => update W H wg

/-- Apply a sequence of driver actions in order. -/
def applyOps (W H : ℕ) (wg : WaveGrid) (l : List Op) : WaveGrid :=
  l.foldl (applyOp W H) wg

/-- The spec's decay measure: the sum of squared current heights over all
masked cells of the lattice. -/
def sumSqInside (W H : ℕ) (wg : WaveGrid) : ℚ :=
  (List.range H).foldl (fun acc y =>
    (List.range W).foldl (fun acc2 x =>
      if wg.mask y x then acc2 + wg.current y x * wg.current y x else acc2)
      acc) 0

/-- Pointwise sum of two doubly indexed fields. -/
def addFields (f g : ℕ → ℕ → ℚ) : ℕ → ℕ → ℚ :=
  fun y x => f y x + g y x

/-- Superpose the height fields of two states sharing a mask. -/
def sAdd (s t : WaveGrid) : WaveGrid :=
  { current := addFields s.current t.current
    previous := addFields s.previous t.previous
    mask := s.mask }

/-- The everywhere-true mask, a shape predicate covering the whole lattice. -/
def maskTrue : ℕ → ℕ → Bool := fun _ _ => true

/-- Concrete state for claim C1's comparison: a `4 × 3` all-masked lattice
whose current height is `16` at cell `(y,x) = (1,1)` and `0` elsewhere. -/
def s1 : WaveGrid :=
  { current := upd2 (fun _ _ => 0) 1 1 16
    previous := fun _ _ => 0
    mask := maskTrue }

/-- Concrete state for claim C2's comparison: the constructed grid with
current height `16` at cell `(y,x) = (400,600)` (the circle center). -/
def sC2 : WaveGrid :=
  { newWaveGrid with current := upd2 newWaveGrid.current 400 600 16 }

/-- Concrete reachable state for claim C8: a `5 × 3` all-masked lattice after
the single excitation `addWave(2, 1)`, which puts height `20` at cell
`(y,x) = (1,2)`. -/
def s8 : WaveGrid :=
  applyOps 5 3 (constructGrid maskTrue) [Op.excite ((2 : ℕ) : ℚ) ((1 : ℕ) : ℚ)]

theorem upd2_self (f : ℕ → ℕ → ℚ) (y x : ℕ) (v : ℚ) : upd2 f y x v y x = v := by
  simp [upd2]

theorem upd2_ne (f : ℕ → ℕ → ℚ) (y x : ℕ) (v : ℚ) {a b : ℕ}
    (h : ¬(a = y ∧ b = x)) : upd2 f y x v a b = f a b := by
  simp only [upd2, if_neg h]

theorem truncZero_intCast (z : ℤ) : truncZero ((z : ℤ) : ℚ) = z := by
  unfold truncZero
  split <;> simp

theorem truncZero_natCast (n : ℕ) : truncZero ((n : ℕ) : ℚ) = (n : ℤ) := by
  rw [← Int.cast_natCast]
  exact truncZero_intCast (n : ℤ)

theorem cellStep_mask (W H : ℕ) (wg : WaveGrid) (y x : ℕ) :
    (cellStep W H wg y x).mask = wg.mask := by
  unfold cellStep
  split <;> rfl

theorem foldl_mask {α : Type} (F : WaveGrid → α → WaveGrid)
    (h : ∀ s a, (F s a).mask = s.mask) :
    ∀ (l : List α) (s : WaveGrid), (l.foldl F s).mask = s.mask := by
  intro l
  induction l with
  | nil => intro s; rfl
  | cons a l ih =>
    intro s
    rw [List.foldl_cons, ih, h]

theorem sweep_mask (W H : ℕ) (wg : WaveGrid) : (sweep W H wg).mask = wg.mask := by
  unfold sweep
  exact foldl_mask _
    (fun s y => foldl_mask _ (fun s2 x => cellStep_mask W H s2 y x) _ s) _ wg

theorem addWave_mask (W H : ℕ) (wg : WaveGrid) (mx my : ℚ) :
    (addWave W H wg mx my).mask = wg.mask := by
  unfold addWave
  dsimp only
  split <;> rfl

theorem addWave_previous (W H : ℕ) (wg : WaveGrid) (mx my : ℚ) :
    (addWave W H wg mx my).previous = wg.previous := by
  unfold addWave
  dsimp only
  split <;> rfl

theorem zeroTopBottom_mask (W H : ℕ) (wg : WaveGrid) :
    (zeroTopBottom W H wg).mask = wg.mask := by
  unfold zeroTopBottom
  exact foldl_mask
    (fun s x => { s with current := upd2 (upd2 s.current 0 x 0) (H - 1) x 0 })
    (fun _ _ => rfl) _ wg

theorem zeroLeftRight_mask (W H : ℕ) (wg : WaveGrid) :
    (zeroLeftRight W H wg).mask = wg.mask := by
  unfold zeroLeftRight
  exact foldl_mask
    (fun s y => { s with current := upd2 (upd2 s.current y 0 0) y (W - 1) 0 })
    (fun _ _ => rfl) _ wg

theorem update_mask (W H : ℕ) (wg : WaveGrid) :
    (update W H wg).mask = wg.mask := by
  unfold update
  rw [zeroLeftRight_mask, zeroTopBottom_mask, sweep_mask]

theorem foldl_previous {α : Type} (F : WaveGrid → α → WaveGrid)
    (h : ∀ s a, (F s a).previous = s.previous) :
    ∀ (l : List α) (s : WaveGrid), (l.foldl F s).previous = s.previous := by
  intro l
  induction l with
  | nil => intro s; rfl
  | cons a l ih =>
    intro s
    rw [List.foldl_cons, ih, h]

theorem zeroTopBottom_previous (W H : ℕ) (wg : WaveGrid) :
    (zeroTopBottom W H wg).previous = wg.previous := by
  unfold zeroTopBottom
  exact foldl_previous
    (fun s x => { s with current := upd2 (upd2 s.current 0 x 0) (H - 1) x 0 })
    (fun _ _ => rfl) _ wg

theorem zeroLeftRight_previous (W H : ℕ) (wg : WaveGrid) :
    (zeroLeftRight W H wg).previous = wg.previous := by
  unfold zeroLeftRight
  exact foldl_previous
    (fun s y => { s with current := upd2 (upd2 s.current y 0 0) y (W - 1) 0 })
    (fun _ _ => rfl) _ wg

theorem upd2_zero_row (c : ℕ → ℕ → ℚ) (H x a b : ℕ) :
    upd2 (upd2 c 0 x 0) (H - 1) x 0 a b =
      if (a = 0 ∨ a = H - 1) ∧ b = x then 0 else c a b := by
  unfold upd2
  split_ifs <;> first | rfl | tauto

theorem upd2_zero_col (c : ℕ → ℕ → ℚ) (W y a b : ℕ) :
    upd2 (upd2 c y 0 0) y (W - 1) 0 a b =
      if a = y ∧ (b = 0 ∨ b = W - 1) then 0 else c a b := by
  unfold upd2
  split_ifs <;> first | rfl | tauto

theorem zeroRow_fold (H : ℕ) :
    ∀ (l : List ℕ) (wg : WaveGrid) (a b : ℕ),
      ((l.foldl (fun s x =>
          { s with current := upd2 (upd2 s.current 0 x 0) (H - 1) x 0 }) wg).current a b) =
        if (a = 0 ∨ a = H - 1) ∧ b ∈ l then 0 else wg.current a b := by
  intro l
  induction l with
  | nil => intro wg a b; simp
  | cons x l ih =>
    intro wg a b
    rw [List.foldl_cons, ih]
    show _ = if (a = 0 ∨ a = H - 1) ∧ b ∈ x :: l then 0 else wg.current a b
    by_cases hrow : a = 0 ∨ a = H - 1
    · by_cases hbl : b ∈ l
      · simp [hrow, hbl]
      · rw [if_neg (by tauto)]
        show upd2 (upd2 wg.current 0 x 0) (H - 1) x 0 a b = _
        rw [upd2_zero_row]
        by_cases hbx : b = x
        · simp [hrow, hbx]
        · rw [if_neg (by tauto), if_neg (by simp [hbl, hbx])]
    · rw [if_neg (by tauto), if_neg (by tauto)]
      show upd2 (upd2 wg.current 0 x 0) (H - 1) x 0 a b = _
      rw [upd2_zero_row, if_neg (by tauto)]

theorem zeroCol_fold (W : ℕ) :
    ∀ (l : List ℕ) (wg : WaveGrid) (a b : ℕ),
      ((l.foldl (fun s y =>
          { s with current := upd2 (upd2 s.current y 0 0) y (W - 1) 0 }) wg).current a b) =
        if (b = 0 ∨ b = W - 1) ∧ a ∈ l then 0 else wg.current a b := by
  intro l
  induction l with
  | nil => intro wg a b; simp
  | cons y l ih =>
    intro wg a b
    rw [List.foldl_cons, ih]
    show _ = if (b = 0 ∨ b = W - 1) ∧ a ∈ y :: l then 0 else wg.current a b
    by_cases hcol : b = 0 ∨ b = W - 1
    · by_cases hal : a ∈ l
      · simp [hcol, hal]
      · rw [if_neg (by tauto)]
        show upd2 (upd2 wg.current y 0 0) y (W - 1) 0 a b = _
        rw [upd2_zero_col]
        by_cases hay : a = y
        · simp [hcol, hay]
        · rw [if_neg (by tauto), if_neg (by simp [hal, hay])]
    · rw [if_neg (by tauto), if_neg (by tauto)]
      show upd2 (upd2 wg.current y 0 0) y (W - 1) 0 a b = _
      rw [upd2_zero_col, if_neg (by tauto)]

theorem zeroTopBottom_current (W H : ℕ) (wg : WaveGrid) (a b : ℕ) :
    (zeroTopBottom W H wg).current a b =
      if (a = 0 ∨ a = H - 1) ∧ b < W then 0 else wg.current a b := by
  unfold zeroTopBottom
  rw [zeroRow_fold]
  simp [List.mem_range]

theorem zeroLeftRight_current (W H : ℕ) (wg : WaveGrid) (a b : ℕ) :
    (zeroLeftRight W H wg).current a b =
      if (b = 0 ∨ b = W - 1) ∧ a < H then 0 else wg.current a b := by
  unfold zeroLeftRight
  rw [zeroCol_fold]
  simp [List.mem_range]

theorem cellStep_maskedOut (W H : ℕ) (wg : WaveGrid) (y x a b : ℕ)
    (h : wg.mask a b = false) :
    (cellStep W H wg y x).current a b = wg.current a b ∧
      (cellStep W H wg y x).previous a b = wg.previous a b := by
  unfold cellStep
  by_cases hm : wg.mask y x = true
  · rw [if_pos hm]
    have hne : ¬(a = y ∧ b = x) := by
      rintro ⟨rfl, rfl⟩
      rw [h] at hm
      exact Bool.noConfusion hm
    exact ⟨upd2_ne _ _ _ _ hne, upd2_ne _ _ _ _ hne⟩
  · rw [if_neg hm]
    exact ⟨rfl, rfl⟩

theorem foldl_keepCell {α : Type} (F : WaveGrid → α → WaveGrid) (a b : ℕ)
    (hm : ∀ s i, (F s i).mask = s.mask)
    (hk : ∀ s i, s.mask a b = false →
      (F s i).current a b = s.current a b ∧ (F s i).previous a b = s.previous a b) :
    ∀ (l : List α) (s : WaveGrid), s.mask a b = false →
      (l.foldl F s).current a b = s.current a b ∧
        (l.foldl F s).previous a b = s.previous a b := by
  intro l
  induction l with
  | nil => intro s _; exact ⟨rfl, rfl⟩
  | cons i l ih =>
    intro s hs
    rw [List.foldl_cons]
    have hs' : (F s i).mask a b = false := by rw [hm]; exact hs
    obtain ⟨h1, h2⟩ := ih (F s i) hs'
    obtain ⟨h3, h4⟩ := hk s i hs
    exact ⟨h1.trans h3, h2.trans h4⟩

theorem sweep_maskedOut (W H : ℕ) (wg : WaveGrid) (a b : ℕ)
    (h : wg.mask a b = false) :
    (sweep W H wg).current a b = wg.current a b ∧
      (sweep W H wg).previous a b = wg.previous a b := by
  unfold sweep
  exact foldl_keepCell _ a b
    (fun s y => foldl_mask _ (fun s2 x => cellStep_mask W H s2 y x) _ s)
    (fun s y hs => foldl_keepCell _ a b
      (fun s2 x => cellStep_mask W H s2 y x)
      (fun s2 x hs2 => cellStep_maskedOut W H s2 y x a b hs2) _ s hs)
    _ wg h

theorem addWave_maskedOut (W H : ℕ) (wg : WaveGrid) (mx my : ℚ) (a b : ℕ)
    (h : wg.mask a b = false) :
    (addWave W H wg mx my).current a b = wg.current a b := by
  unfold addWave
  dsimp only
  split
  · next hc =>
    have hne : ¬(a = (truncZero (my / (gridSize : ℚ))).toNat ∧
        b = (truncZero (mx / (gridSize : ℚ))).toNat) := by
      rintro ⟨rfl, rfl⟩
      rw [h] at hc
      exact Bool.noConfusion hc.2.2.2.2
    exact upd2_ne _ _ _ _ hne
  · rfl

theorem update_maskedOut (W H : ℕ) (wg : WaveGrid) (a b : ℕ)
    (h : wg.mask a b = false) (hc : wg.current a b = 0) :
    (update W H wg).current a b = 0 ∧
      (update W H wg).previous a b = wg.previous a b := by
  unfold update
  obtain ⟨h1, h2⟩ := sweep_maskedOut W H wg a b h
  constructor
  · rw [zeroLeftRight_current, zeroTopBottom_current]
    split_ifs <;> simp [h1, hc]
  · rw [zeroLeftRight_previous, zeroTopBottom_previous, h2]

theorem applyOp_mask (W H : ℕ) (wg : WaveGrid) (op : Op) :
    (applyOp W H wg op).mask = wg.mask := by
  cases op with
  | excite mx my => exact addWave_mask W H wg mx my
  | step => exact update_mask W H wg

theorem applyOps_mask (W H : ℕ) (wg : WaveGrid) (l : List Op) :
    (applyOps W H wg l).mask = wg.mask := by
  unfold applyOps
  exact foldl_mask _ (applyOp_mask W H) l wg

theorem applyOps_maskedOut :
    ∀ (l : List Op) (W H : ℕ) (s : WaveGrid) (a b : ℕ),
      s.mask a b = false → s.current a b = 0 → s.previous a b = 0 →
      (applyOps W H s l).current a b = 0 ∧ (applyOps W H s l).previous a b = 0 := by
  intro l
  induction l with
  | nil => intro W H s a b _ hc hp; exact ⟨hc, hp⟩
  | cons op l ih =>
    intro W H s a b hm hc hp
    show (applyOps W H (applyOp W H s op) l).current a b = 0 ∧ _
    have hm' : (applyOp W H s op).mask a b = false := by
      rw [applyOp_mask]; exact hm
    cases op with
    | excite mx my =>
      exact ih W H _ a b hm'
        ((addWave_maskedOut W H s mx my a b hm).trans hc)
        ((congrFun (congrFun (addWave_previous W H s mx my) a) b).trans hp)
    | step =>
      obtain ⟨h1, h2⟩ := update_maskedOut W H s a b hm hc
      exact ih W H _ a b hm' h1 (h2.trans hp)

theorem lapStep_fold_count (W H : ℕ) (c d : ℕ → ℕ → ℚ) (m : ℕ → ℕ → Bool)
    (y x : ℕ) :
    ∀ (l : List (ℤ × ℤ)) (a1 a2 : ℚ) (k : ℕ),
      (l.foldl (lapStep W H c m y x) (a1, k)).2 =
        (l.foldl (lapStep W H d m y x) (a2, k)).2 := by
  intro l
  induction l with
  | nil => intro a1 a2 k; rfl
  | cons n l ih =>
    intro a1 a2 k
    rw [List.foldl_cons, List.foldl_cons]
    unfold lapStep
    dsimp only
    split_ifs <;> exact ih _ _ _

theorem lapStep_fold_fst_add (W H : ℕ) (c d : ℕ → ℕ → ℚ) (m : ℕ → ℕ → Bool)
    (y x : ℕ) :
    ∀ (l : List (ℤ × ℤ)) (a1 a2 : ℚ) (k : ℕ),
      (l.foldl (lapStep W H (addFields c d) m y x) (a1 + a2, k)).1 =
        (l.foldl (lapStep W H c m y x) (a1, k)).1 +
          (l.foldl (lapStep W H d m y x) (a2, k)).1 := by
  intro l
  induction l with
  | nil => intro a1 a2 k; rfl
  | cons n l ih =>
    intro a1 a2 k
    rw [List.foldl_cons, List.foldl_cons, List.foldl_cons]
    unfold lapStep
    dsimp only
    split_ifs
    · rw [show a1 + a2 + addFields c d ((y : ℤ) + n.2).toNat ((x : ℤ) + n.1).toNat =
          (a1 + c ((y : ℤ) + n.2).toNat ((x : ℤ) + n.1).toNat) +
            (a2 + d ((y : ℤ) + n.2).toNat ((x : ℤ) + n.1).toNat) by
        simp only [addFields]; ring]
      exact ih _ _ _
    · rw [show a1 + a2 - addFields c d y x =
          (a1 - c y x) + (a2 - d y x) by simp only [addFields]; ring]
      exact ih _ _ _
    · exact ih _ _ _

theorem lapAndCount_count (W H : ℕ) (c d : ℕ → ℕ → ℚ) (m : ℕ → ℕ → Bool)
    (y x : ℕ) :
    (lapAndCount W H c m y x).2 = (lapAndCount W H d m y x).2 :=
  lapStep_fold_count W H c d m y x neighborOffsets 0 0 0

theorem lapAndCount_fst_add (W H : ℕ) (c d : ℕ → ℕ → ℚ) (m : ℕ → ℕ → Bool)
    (y x : ℕ) :
    (lapAndCount W H (addFields c d) m y x).1 =
      (lapAndCount W H c m y x).1 + (lapAndCount W H d m y x).1 := by
  have hgen := lapStep_fold_fst_add W H c d m y x neighborOffsets 0 0 0
  norm_num at hgen
  unfold lapAndCount
  exact hgen

theorem laplacianAt_add (W H : ℕ) (c d : ℕ → ℕ → ℚ) (m : ℕ → ℕ → Bool)
    (y x : ℕ) :
    laplacianAt W H (addFields c d) m y x =
      laplacianAt W H c m y x + laplacianAt W H d m y x := by
  unfold laplacianAt
  rw [lapAndCount_fst_add,
    lapAndCount_count W H (addFields c d) c m y x,
    lapAndCount_count W H d c m y x]
  simp only [addFields]
  ring

theorem addFields_upd2 (f g : ℕ → ℕ → ℚ) (y x : ℕ) (v w : ℚ) :
    addFields (upd2 f y x v) (upd2 g y x w) = upd2 (addFields f g) y x (v + w) := by
  funext a b
  by_cases h : a = y ∧ b = x <;> simp [addFields, upd2, h]

theorem addFields_upd2_left (f g : ℕ → ℕ → ℚ) (y x : ℕ) (k : ℚ) :
    addFields (upd2 f y x (f y x + k)) g =
      upd2 (addFields f g) y x (addFields f g y x + k) := by
  funext a b
  by_cases h : a = y ∧ b = x
  · obtain ⟨rfl, rfl⟩ := h
    simp [addFields, upd2]
    ring
  · simp [addFields, upd2, h]

theorem addFields_upd2_right (f g : ℕ → ℕ → ℚ) (y x : ℕ) (k : ℚ) :
    addFields f (upd2 g y x (g y x + k)) =
      upd2 (addFields f g) y x (addFields f g y x + k) := by
  funext a b
  by_cases h : a = y ∧ b = x
  · obtain ⟨rfl, rfl⟩ := h
    simp [addFields, upd2]
    ring
  · simp [addFields, upd2, h]

theorem sAdd_mask (s t : WaveGrid) : (sAdd s t).mask = s.mask := rfl

theorem addFields_apply (f g : ℕ → ℕ → ℚ) (y x : ℕ) :
    addFields f g y x = f y x + g y x := rfl

theorem sAdd_zero_right (s : WaveGrid) (m : ℕ → ℕ → Bool) :
    sAdd s (constructGrid m) = s := by
  refine WaveGrid.ext ?_ ?_ rfl
  · funext a b
    simp [sAdd, addFields, constructGrid]
  · funext a b
    simp [sAdd, addFields, constructGrid]

theorem cellStep_add (W H : ℕ) (s t : WaveGrid) (y x : ℕ)
    (h : t.mask = s.mask) :
    cellStep W H (sAdd s t) y x = sAdd (cellStep W H s y x) (cellStep W H t y x) := by
  by_cases hm : s.mask y x = true
  · have hmt : t.mask y x = true := by rw [h]; exact hm
    have hms : (sAdd s t).mask y x = true := hm
    have hl : laplacianAt W H (addFields s.current t.current) s.mask y x =
        laplacianAt W H s.current s.mask y x +
          laplacianAt W H t.current t.mask y x := by
      rw [laplacianAt_add, h]
    unfold cellStep
    rw [if_pos hms, if_pos hm, if_pos hmt]
    refine WaveGrid.ext ?_ ?_ rfl
    · funext a b
      show upd2 (sAdd s t).current y x _ a b =
        addFields (upd2 s.current y x _) (upd2 t.current y x _) a b
      simp only [sAdd, upd2, addFields_apply, hl]
      split_ifs with hab
      · ring
      · rfl
    · funext a b
      show upd2 (sAdd s t).previous y x ((sAdd s t).current y x) a b =
        addFields (upd2 s.previous y x (s.current y x))
          (upd2 t.previous y x (t.current y x)) a b
      simp only [sAdd, upd2, addFields_apply]
      split_ifs with hab <;> rfl
  · have hmt : ¬(t.mask y x = true) := by rw [h]; exact hm
    have hms : ¬((sAdd s t).mask y x = true) := hm
    unfold cellStep
    rw [if_neg hms, if_neg hm, if_neg hmt]

theorem foldl_sAdd {α : Type} (F : WaveGrid → α → WaveGrid)
    (hm : ∀ s a, (F s a).mask = s.mask)
    (hadd : ∀ s t a, t.mask = s.mask → F (sAdd s t) a = sAdd (F s a) (F t a)) :
    ∀ (l : List α) (s t : WaveGrid), t.mask = s.mask →
      l.foldl F (sAdd s t) = sAdd (l.foldl F s) (l.foldl F t) := by
  intro l
  induction l with
  | nil => intro s t _; rfl
  | cons a l ih =>
    intro s t h
    rw [List.foldl_cons, List.foldl_cons, List.foldl_cons, hadd s t a h]
    exact ih (F s a) (F t a) (by rw [hm, hm, h])

theorem sweep_add (W H : ℕ) (s t : WaveGrid) (h : t.mask = s.mask) :
    sweep W H (sAdd s t) = sAdd (sweep W H s) (sweep W H t) := by
  unfold sweep
  exact foldl_sAdd _
    (fun s' y => foldl_mask _ (fun s2 x => cellStep_mask W H s2 y x) _ s')
    (fun s' t' y h' => foldl_sAdd _
      (fun s2 x => cellStep_mask W H s2 y x)
      (fun s2 t2 x h2 => cellStep_add W H s2 t2 y x h2) _ s' t' h')
    _ s t h

theorem zeroTopBottom_add (W H : ℕ) (s t : WaveGrid) (h : t.mask = s.mask) :
    zeroTopBottom W H (sAdd s t) = sAdd (zeroTopBottom W H s) (zeroTopBottom W H t) := by
  unfold zeroTopBottom
  refine foldl_sAdd
    (fun s' x => { s' with current := upd2 (upd2 s'.current 0 x 0) (H - 1) x 0 })
    (fun _ _ => rfl) ?_ _ s t h
  intro s' t' x _
  refine WaveGrid.ext ?_ rfl rfl
  show upd2 (upd2 (addFields s'.current t'.current) 0 x 0) (H - 1) x 0 =
    addFields (upd2 (upd2 s'.current 0 x 0) (H - 1) x 0)
      (upd2 (upd2 t'.current 0 x 0) (H - 1) x 0)
  rw [addFields_upd2, addFields_upd2]
  norm_num

theorem zeroLeftRight_add (W H : ℕ) (s t : WaveGrid) (h : t.mask = s.mask) :
    zeroLeftRight W H (sAdd s t) = sAdd (zeroLeftRight W H s) (zeroLeftRight W H t) := by
  unfold zeroLeftRight
  refine foldl_sAdd
    (fun s' y => { s' with current := upd2 (upd2 s'.current y 0 0) y (W - 1) 0 })
    (fun _ _ => rfl) ?_ _ s t h
  intro s' t' y _
  refine WaveGrid.ext ?_ rfl rfl
  show upd2 (upd2 (addFields s'.current t'.current) y 0 0) y (W - 1) 0 =
    addFields (upd2 (upd2 s'.current y 0 0) y (W - 1) 0)
      (upd2 (upd2 t'.current y 0 0) y (W - 1) 0)
  rw [addFields_upd2, addFields_upd2]
  norm_num

theorem update_add (W H : ℕ) (s t : WaveGrid) (h : t.mask = s.mask) :
    update W H (sAdd s t) = sAdd (update W H s) (update W H t) := by
  have h1 : (sweep W H t).mask = (sweep W H s).mask := by
    rw [sweep_mask, sweep_mask, h]
  have h2 : (zeroTopBottom W H (sweep W H t)).mask =
      (zeroTopBottom W H (sweep W H s)).mask := by
    rw [zeroTopBottom_mask, zeroTopBottom_mask, h1]
  unfold update
  rw [sweep_add W H s t h, zeroTopBottom_add W H _ _ h1,
    zeroLeftRight_add W H _ _ h2]

theorem addWave_sAdd_right (W H : ℕ) (s t : WaveGrid) (mx my : ℚ)
    (h : t.mask = s.mask) :
    addWave W H (sAdd s t) mx my = sAdd s (addWave W H t mx my) := by
  unfold addWave
  dsimp only
  rw [sAdd_mask, ← h]
  split
  · refine WaveGrid.ext ?_ rfl h
    funext a b
    show upd2 (sAdd s t).current _ _ ((sAdd s t).current _ _ + 20) a b =
      addFields s.current (upd2 t.current _ _ (t.current _ _ + 20)) a b
    simp only [sAdd, upd2, addFields_apply]
    split_ifs with hab
    · obtain ⟨rfl, rfl⟩ := hab
      ring
    · rfl
  · rfl

theorem update_superposition (W H : ℕ) (m : ℕ → ℕ → Bool) (e1x e1y e2x e2y : ℚ) :
    update W H (addWave W H (addWave W H (constructGrid m) e1x e1y) e2x e2y) =
      sAdd (update W H (addWave W H (constructGrid m) e1x e1y))
        (update W H (addWave W H (constructGrid m) e2x e2y)) := by
  have hAm : (addWave W H (constructGrid m) e1x e1y).mask = m :=
    addWave_mask W H (constructGrid m) e1x e1y
  have h1 : addWave W H (addWave W H (constructGrid m) e1x e1y) e2x e2y =
      sAdd (addWave W H (constructGrid m) e1x e1y)
        (addWave W H (constructGrid m) e2x e2y) := by
    conv_lhs =>
      rw [show addWave W H (constructGrid m) e1x e1y =
        sAdd (addWave W H (constructGrid m) e1x e1y) (constructGrid m) from
          (sAdd_zero_right _ m).symm]
    exact addWave_sAdd_right W H _ _ e2x e2y hAm.symm
  have h2 : (addWave W H (constructGrid m) e2x e2y).mask =
      (addWave W H (constructGrid m) e1x e1y).mask := by
    rw [addWave_mask, addWave_mask]
  rw [h1, update_add W H _ _ h2]

theorem lap_closed_form (W H : ℕ) (cur : ℕ → ℕ → ℚ) (m : ℕ → ℕ → Bool)
    (y x : ℕ) (hx0 : 0 < x) (hxW : x + 1 < W) (hy0 : 0 < y) (hyH : y + 1 < H) :
    laplacianAt W H cur m y x =
      (if m (y - 1) x then cur (y - 1) x - cur y x else -(2 * cur y x)) +
        (if m (y + 1) x then cur (y + 1) x - cur y x else -(2 * cur y x)) +
        (if m y (x - 1) then cur y (x - 1) - cur y x else -(2 * cur y x)) +
        (if m y (x + 1) then cur y (x + 1) - cur y x else -(2 * cur y x)) := by
  have e1 : ((x : ℤ) + 0).toNat = x := by omega
  have e2 : ((x : ℤ) + 1).toNat = x + 1 := by omega
  have e3 : ((x : ℤ) + -1).toNat = x - 1 := by omega
  have e4 : ((y : ℤ) + 0).toNat = y := by omega
  have e5 : ((y : ℤ) + 1).toNat = y + 1 := by omega
  have e6 : ((y : ℤ) + -1).toNat = y - 1 := by omega
  have c1 : 0 ≤ (x : ℤ) + 0 ∧ (x : ℤ) + 0 < (W : ℤ) ∧
      0 ≤ (y : ℤ) + -1 ∧ (y : ℤ) + -1 < (H : ℤ) := by omega
  have c2 : 0 ≤ (x : ℤ) + 0 ∧ (x : ℤ) + 0 < (W : ℤ) ∧
      0 ≤ (y : ℤ) + 1 ∧ (y : ℤ) + 1 < (H : ℤ) := by omega
  have c3 : 0 ≤ (x : ℤ) + -1 ∧ (x : ℤ) + -1 < (W : ℤ) ∧
      0 ≤ (y : ℤ) + 0 ∧ (y : ℤ) + 0 < (H : ℤ) := by omega
  have c4 : 0 ≤ (x : ℤ) + 1 ∧ (x : ℤ) + 1 < (W : ℤ) ∧
      0 ≤ (y : ℤ) + 0 ∧ (y : ℤ) + 0 < (H : ℤ) := by omega
  unfold laplacianAt lapAndCount neighborOffsets
  rw [List.foldl_cons, List.foldl_cons, List.foldl_cons, List.foldl_cons,
    List.foldl_nil]
  unfold lapStep
  dsimp only
  rw [if_pos c1, if_pos c2, if_pos c3, if_pos c4]
  simp only [e1, e2, e3, e4, e5, e6]
  split_ifs <;> dsimp only <;> push_cast <;> ring

theorem s8_eq :
    s8 = { current := upd2 (fun _ _ => 0) 1 2 20
           previous := fun _ _ => 0
           mask := maskTrue } := by
  have hg : ((gridSize : ℕ) : ℚ) = 1 := by norm_num [gridSize]
  have ht2 : truncZero (((2 : ℕ) : ℚ) / ((gridSize : ℕ) : ℚ)) = 2 := by
    rw [hg, div_one, truncZero_natCast]
    norm_num
  have ht1 : truncZero (((1 : ℕ) : ℚ) / ((gridSize : ℕ) : ℚ)) = 1 := by
    rw [hg, div_one, truncZero_natCast]
    norm_num
  show addWave 5 3 (constructGrid maskTrue) ((2 : ℕ) : ℚ) ((1 : ℕ) : ℚ) = _
  unfold addWave
  dsimp only
  rw [ht1, ht2]
  have hcond : (0 : ℤ) ≤ 2 ∧ (2 : ℤ) < ((5 : ℕ) : ℤ) ∧ (0 : ℤ) ≤ 1 ∧
      (1 : ℤ) < ((3 : ℕ) : ℤ) ∧
      (constructGrid maskTrue).mask (1 : ℤ).toNat (2 : ℤ).toNat = true :=
    ⟨by norm_num, by norm_num, by norm_num, by norm_num, rfl⟩
  rw [if_pos hcond]
  refine WaveGrid.ext ?_ rfl rfl
  funext a b
  show upd2 (constructGrid maskTrue).current (1 : ℤ).toNat (2 : ℤ).toNat _ a b = _
  have htn : Int.toNat 2 = 2 := rfl
  norm_num [upd2, constructGrid, htn]

/-- An in-range excitation at a masked cell rewrites the current field at
exactly the mapped cell, adding `20` there. -/
theorem addWave_hit (W H : ℕ) (wg : WaveGrid) (mx my : ℚ) (gx gy : ℕ)
    (hgx : truncZero (mx / ((gridSize : ℕ) : ℚ)) = (gx : ℤ))
    (hgy : truncZero (my / ((gridSize : ℕ) : ℚ)) = (gy : ℤ))
    (hx : gx < W) (hy : gy < H) (hm : wg.mask gy gx = true) :
    (addWave W H wg mx my).current =
      upd2 wg.current gy gx (wg.current gy gx + 20) := by
  unfold addWave
  dsimp only
  rw [hgx, hgy]
  have hcond : (0 : ℤ) ≤ (gx : ℤ) ∧ (gx : ℤ) < (W : ℤ) ∧
      (0 : ℤ) ≤ (gy : ℤ) ∧ (gy : ℤ) < (H : ℤ) ∧
      wg.mask (gy : ℤ).toNat (gx : ℤ).toNat = true := by
    refine ⟨Int.natCast_nonneg gx, by exact_mod_cast hx,
      Int.natCast_nonneg gy, by exact_mod_cast hy, ?_⟩
    rw [Int.toNat_natCast, Int.toNat_natCast]
    exact hm
  rw [if_pos hcond]
  show upd2 wg.current (gy : ℤ).toNat (gx : ℤ).toNat
    (wg.current (gy : ℤ).toNat (gx : ℤ).toNat + 20) = _
  rw [Int.toNat_natCast, Int.toNat_natCast]

/-- C1, counterexample: on a `4 × 3` all-masked lattice with a single nonzero
height at cell `(1,1)`, the in-place `update` writes a different value to the
neighboring cell `(1,2)` than the buffered sweep the claim describes, so the
value written to a cell does depend on values already rewritten earlier in the
same sweep. -/
theorem C1_counterexample :
    (update 4 3 s1).current 1 2 ≠ (updateBuffered 4 3 s1).current 1 2 := by
  norm_num [update, updateBuffered, sweep, zeroTopBottom, zeroLeftRight,
    cellStep, laplacianAt, lapAndCount, lapStep, neighborOffsets, upd2, s1,
    maskTrue, damping, waveSpeed, List.range_succ]

/-- C1, amended: the sweep of `update` is in place. The value `update` writes
to cell `(1,2)` of `s1` is the leapfrog formula evaluated with the
already-rewritten height of the left neighbor `(1,1)` (the value `update`
itself produced there), not with the prior height of `(1,1)`. -/
theorem C1_thm :
    (update 4 3 s1).current 1 2 =
      damping * (2 * s1.current 1 2 - s1.previous 1 2 +
        waveSpeed * waveSpeed *
          ((update 4 3 s1).current 1 1 + s1.current 0 2 + s1.current 2 2 +
            s1.current 1 3 - 4 * s1.current 1 2)) := by
  norm_num [update, sweep, zeroTopBottom, zeroLeftRight,
    cellStep, laplacianAt, lapAndCount, lapStep, neighborOffsets, upd2, s1,
    maskTrue, damping, waveSpeed, List.range_succ]

/-- C2, counterexample: at the circle center cell `(400,600)` of `sC2` (all
four neighbors masked), the Laplacian `update` uses is `-64`, while the
claim's formula — per-neighbor contributions divided by the neighbor count —
gives `-16`; the code never divides the accumulator by the neighbor count. -/
theorem C2_counterexample :
    laplacianAt gridWidth gridHeight sC2.current sC2.mask 400 600 ≠
      lapClaim gridWidth gridHeight sC2.current sC2.mask 400 600 := by
  have t1 : Int.toNat 599 = 599 := rfl
  have t2 : Int.toNat 600 = 600 := rfl
  have t3 : Int.toNat 601 = 601 := rfl
  have t4 : Int.toNat 399 = 399 := rfl
  have t5 : Int.toNat 400 = 400 := rfl
  have t6 : Int.toNat 401 = 401 := rfl
  norm_num [laplacianAt, lapAndCount, lapStep, lapClaim, neighborOffsets, sC2,
    newWaveGrid, initializeMask, pointInShape, upd2, gridWidth, gridHeight,
    screenWidth, screenHeight, gridSize, t1, t2, t3, t4, t5, t6]

/-- C2, amended: for an interior cell (all four neighbors on the lattice),
the Laplacian `update` feeds into the height formula is the plain sum over
the four axis-aligned neighbors of `cur[n] - cur[c]` for a masked neighbor
and `-2 * cur[c]` for an unmasked (wall) neighbor — there is no division by
the neighbor count, and a wall contributes `-2·cur[c]`, not `-cur[c]`. -/
theorem C2_thm (W H : ℕ) (cur : ℕ → ℕ → ℚ) (m : ℕ → ℕ → Bool)
    (y x : ℕ) (hx0 : 0 < x) (hxW : x + 1 < W) (hy0 : 0 < y) (hyH : y + 1 < H) :
    laplacianAt W H cur m y x =
      (if m (y - 1) x then cur (y - 1) x - cur y x else -(2 * cur y x)) +
        (if m (y + 1) x then cur (y + 1) x - cur y x else -(2 * cur y x)) +
        (if m y (x - 1) then cur y (x - 1) - cur y x else -(2 * cur y x)) +
        (if m y (x + 1) then cur y (x + 1) - cur y x else -(2 * cur y x)) :=
  lap_closed_form W H cur m y x hx0 hxW hy0 hyH

/-- Witness for C2's amended theorem at the interior cell `(400,600)` of the
source-sized lattice. -/
theorem C2_witness :
    (0 < 600 ∧ 600 + 1 < gridWidth ∧ 0 < 400 ∧ 400 + 1 < gridHeight) ∧
      laplacianAt gridWidth gridHeight sC2.current sC2.mask 400 600 =
        (if sC2.mask (400 - 1) 600 then
          sC2.current (400 - 1) 600 - sC2.current 400 600
        else -(2 * sC2.current 400 600)) +
          (if sC2.mask (400 + 1) 600 then
            sC2.current (400 + 1) 600 - sC2.current 400 600
          else -(2 * sC2.current 400 600)) +
          (if sC2.mask 400 (600 - 1) then
            sC2.current 400 (600 - 1) - sC2.current 400 600
          else -(2 * sC2.current 400 600)) +
          (if sC2.mask 400 (600 + 1) then
            sC2.current 400 (600 + 1) - sC2.current 400 600
          else -(2 * sC2.current 400 600)) :=
  ⟨⟨by norm_num, by norm_num [gridWidth, screenWidth, gridSize], by norm_num,
      by norm_num [gridHeight, screenHeight, gridSize]⟩,
    C2_thm gridWidth gridHeight sC2.current sC2.mask 400 600 (by norm_num)
      (by norm_num [gridWidth, screenWidth, gridSize]) (by norm_num)
      (by norm_num [gridHeight, screenHeight, gridSize])⟩

/-- C3: starting from a zero-initialized constructed state, any sequence of
excitations and steps leaves every masked-out cell's current and previous
height exactly at the reference value zero: neither `addWave` nor `update`
ever writes a non-reference value to a masked-out cell. -/
theorem C3_thm (W H : ℕ) (m : ℕ → ℕ → Bool) (ops : List Op) (a b : ℕ)
    (h : m a b = false) :
    (applyOps W H (constructGrid m) ops).current a b = 0 ∧
      (applyOps W H (constructGrid m) ops).previous a b = 0 :=
  applyOps_maskedOut ops W H (constructGrid m) a b h rfl rfl

/-- Witness for C3 at a concrete masked-out cell after an excitation and a
step. -/
theorem C3_witness :
    (fun _ _ => false : ℕ → ℕ → Bool) 1 1 = false ∧
      (applyOps 4 4 (constructGrid (fun _ _ => false))
        [Op.excite ((1 : ℕ) : ℚ) ((1 : ℕ) : ℚ), Op.step]).current 1 1 = 0 :=
  ⟨rfl, (C3_thm 4 4 (fun _ _ => false)
    [Op.excite ((1 : ℕ) : ℚ) ((1 : ℕ) : ℚ), Op.step] 1 1 rfl).1⟩

/-- C4: immediately after every `update`, every in-range cell of the
outermost border (row 0, row H-1, column 0, column W-1) of the current height
field is exactly zero, regardless of the state before the call. -/
theorem C4_thm (W H : ℕ) (wg : WaveGrid) (y x : ℕ) (hy : y < H) (hx : x < W)
    (hb : y = 0 ∨ y = H - 1 ∨ x = 0 ∨ x = W - 1) :
    (update W H wg).current y x = 0 := by
  unfold update
  rw [zeroLeftRight_current, zeroTopBottom_current]
  by_cases h1 : (x = 0 ∨ x = W - 1) ∧ y < H
  · rw [if_pos h1]
  · rw [if_neg h1]
    have h2 : (y = 0 ∨ y = H - 1) ∧ x < W := by
      refine ⟨?_, hx⟩
      rcases hb with h | h | h | h
      · exact Or.inl h
      · exact Or.inr h
      · exact absurd ⟨Or.inl h, hy⟩ h1
      · exact absurd ⟨Or.inr h, hy⟩ h1
    rw [if_pos h2]

/-- Witness for C4 at the top border cell `(0,1)` of a `3 × 3` all-masked
lattice. -/
theorem C4_witness :
    ((0 : ℕ) < 3 ∧ (1 : ℕ) < 3 ∧
        ((0 : ℕ) = 0 ∨ (0 : ℕ) = 3 - 1 ∨ (1 : ℕ) = 0 ∨ (1 : ℕ) = 3 - 1)) ∧
      (update 3 3 (constructGrid maskTrue)).current 0 1 = 0 :=
  ⟨⟨by norm_num, by norm_num, Or.inl rfl⟩,
    C4_thm 3 3 (constructGrid maskTrue) 0 1 (by norm_num) (by norm_num)
      (Or.inl rfl)⟩

/-- C5, counterexample: cell `(400,604)` of the constructed grid is masked and
lies at Euclidean distance `4` from the excitation center `(600,400)`, inside
radius `8`, where the claimed falloff contribution is
`20 * (1 - 4/8)² = 5 ≠ 0`; yet `addWave(600,400)` leaves that cell's height
unchanged — the code excites a single cell with no radius of effect. -/
theorem C5_counterexample :
    newWaveGrid.mask 400 604 = true ∧
      exciteContribution 20 8 4 = 5 ∧
      (addWave gridWidth gridHeight newWaveGrid ((600 : ℕ) : ℚ)
        ((400 : ℕ) : ℚ)).current 400 604 = newWaveGrid.current 400 604 := by
  refine ⟨?_, ?_, ?_⟩
  · show pointInShape _ _ = true
    simp only [pointInShape, decide_eq_true_eq]
    norm_num [screenWidth, screenHeight, gridSize]
  · norm_num [exciteContribution]
  · have hg : ((gridSize : ℕ) : ℚ) = 1 := by norm_num [gridSize]
    have h6 : truncZero (((600 : ℕ) : ℚ) / ((gridSize : ℕ) : ℚ)) = 600 := by
      rw [hg, div_one, truncZero_natCast]
      norm_num
    have h4 : truncZero (((400 : ℕ) : ℚ) / ((gridSize : ℕ) : ℚ)) = 400 := by
      rw [hg, div_one, truncZero_natCast]
      norm_num
    have htn6 : Int.toNat 600 = 600 := rfl
    have htn4 : Int.toNat 400 = 400 := rfl
    unfold addWave
    dsimp only
    rw [h6, h4]
    have hcond : (0 : ℤ) ≤ 600 ∧ (600 : ℤ) < (gridWidth : ℤ) ∧
        (0 : ℤ) ≤ 400 ∧ (400 : ℤ) < (gridHeight : ℤ) ∧
        newWaveGrid.mask (400 : ℤ).toNat (600 : ℤ).toNat = true := by
      refine ⟨by norm_num, by norm_num [gridWidth, screenWidth, gridSize],
        by norm_num, by norm_num [gridHeight, screenHeight, gridSize], ?_⟩
      rw [htn4, htn6]
      show pointInShape _ _ = true
      simp only [pointInShape, decide_eq_true_eq]
      norm_num [screenWidth, screenHeight, gridSize]
    rw [if_pos hcond]
    show upd2 newWaveGrid.current (Int.toNat 400) (Int.toNat 600)
        (newWaveGrid.current (Int.toNat 400) (Int.toNat 600) + 20) 400 604 =
      newWaveGrid.current 400 604
    refine upd2_ne _ _ _ _ ?_
    rw [htn4, htn6]
    norm_num

/-- C5, amended: an in-range excitation at a masked cell adds exactly the
fixed amount `20` to that single mapped cell's current height, and a cell
whose current height changes at all must be the mapped cell — there is no
radius parameter and no radial falloff. -/
theorem C5_thm (W H : ℕ) (wg : WaveGrid) (mx my : ℚ) (gx gy : ℕ)
    (hgx : truncZero (mx / ((gridSize : ℕ) : ℚ)) = (gx : ℤ))
    (hgy : truncZero (my / ((gridSize : ℕ) : ℚ)) = (gy : ℤ))
    (hx : gx < W) (hy : gy < H) (hm : wg.mask gy gx = true) :
    (addWave W H wg mx my).current gy gx = wg.current gy gx + 20 ∧
      ∀ a b : ℕ, (addWave W H wg mx my).current a b ≠ wg.current a b →
        a = gy ∧ b = gx := by
  have hcur := addWave_hit W H wg mx my gx gy hgx hgy hx hy hm
  constructor
  · rw [hcur, upd2_self]
  · intro a b hne
    by_contra hab
    apply hne
    rw [hcur]
    exact upd2_ne _ _ _ _ hab

/-- Witness for C5's amended theorem: excitation at `(1,1)` on a `4 × 4`
all-masked lattice. -/
theorem C5_witness :
    (truncZero (((1 : ℕ) : ℚ) / ((gridSize : ℕ) : ℚ)) = ((1 : ℕ) : ℤ) ∧
        (1 : ℕ) < 4 ∧ (constructGrid maskTrue).mask 1 1 = true) ∧
      (addWave 4 4 (constructGrid maskTrue) ((1 : ℕ) : ℚ)
        ((1 : ℕ) : ℚ)).current 1 1 = (constructGrid maskTrue).current 1 1 + 20 := by
  have hg : ((gridSize : ℕ) : ℚ) = 1 := by norm_num [gridSize]
  have ht : truncZero (((1 : ℕ) : ℚ) / ((gridSize : ℕ) : ℚ)) = ((1 : ℕ) : ℤ) := by
    rw [hg, div_one, truncZero_natCast]
  exact ⟨⟨ht, by norm_num, rfl⟩,
    (C5_thm 4 4 (constructGrid maskTrue) ((1 : ℕ) : ℚ) ((1 : ℕ) : ℚ) 1 1 ht ht
      (by norm_num) (by norm_num) rfl).1⟩

/-- C6: excitations superpose. Exciting twice from the constructed state and
stepping once gives, at every cell, the sum of the fields obtained by
performing each excitation alone on an identically constructed state and
stepping once — `addWave` adds to the existing height and the `update`
transition is additive in the (current, previous) fields. -/
theorem C6_thm (W H : ℕ) (m : ℕ → ℕ → Bool) (e1x e1y e2x e2y : ℚ) (y x : ℕ) :
    (update W H (addWave W H (addWave W H (constructGrid m) e1x e1y)
        e2x e2y)).current y x =
      (update W H (addWave W H (constructGrid m) e1x e1y)).current y x +
        (update W H (addWave W H (constructGrid m) e2x e2y)).current y x := by
  rw [update_superposition]
  rfl

/-- C7: an excitation whose mapped cell coordinates fall outside the lattice
range is silently ignored — `addWave` returns the state bitwise unchanged. -/
theorem C7_thm (W H : ℕ) (wg : WaveGrid) (mx my : ℚ)
    (h : truncZero (mx / ((gridSize : ℕ) : ℚ)) < 0 ∨
      (W : ℤ) ≤ truncZero (mx / ((gridSize : ℕ) : ℚ)) ∨
      truncZero (my / ((gridSize : ℕ) : ℚ)) < 0 ∨
      (H : ℤ) ≤ truncZero (my / ((gridSize : ℕ) : ℚ))) :
    addWave W H wg mx my = wg := by
  unfold addWave
  dsimp only
  rw [if_neg]
  rintro ⟨h1, h2, h3, h4, -⟩
  rcases h with h | h | h | h <;> omega

/-- Witness for C7: a click at `mx = -1` on the source-sized lattice maps to
column `-1 < 0` and is ignored. -/
theorem C7_witness :
    (truncZero (((-1 : ℤ) : ℚ) / ((gridSize : ℕ) : ℚ)) < 0 ∨
        (gridWidth : ℤ) ≤ truncZero (((-1 : ℤ) : ℚ) / ((gridSize : ℕ) : ℚ)) ∨
        truncZero (((5 : ℕ) : ℚ) / ((gridSize : ℕ) : ℚ)) < 0 ∨
        (gridHeight : ℤ) ≤ truncZero (((5 : ℕ) : ℚ) / ((gridSize : ℕ) : ℚ))) ∧
      addWave gridWidth gridHeight newWaveGrid ((-1 : ℤ) : ℚ)
        ((5 : ℕ) : ℚ) = newWaveGrid := by
  have hg : ((gridSize : ℕ) : ℚ) = 1 := by norm_num [gridSize]
  have ht : truncZero (((-1 : ℤ) : ℚ) / ((gridSize : ℕ) : ℚ)) = -1 := by
    rw [hg, div_one, truncZero_intCast]
  have hlt : truncZero (((-1 : ℤ) : ℚ) / ((gridSize : ℕ) : ℚ)) < 0 := by
    rw [ht]
    norm_num
  exact ⟨Or.inl hlt,
    C7_thm gridWidth gridHeight newWaveGrid ((-1 : ℤ) : ℚ) ((5 : ℕ) : ℚ)
      (Or.inl hlt)⟩

/-- C8, counterexample: from the reachable state `s8` (one excitation on an
all-masked `5 × 3` lattice), a single `update` strictly increases the sum of
squared heights over inside cells even though `damping < 1` — the sum is not
non-increasing. -/
theorem C8_counterexample :
    damping < 1 ∧ sumSqInside 5 3 s8 < sumSqInside 5 3 (update 5 3 s8) := by
  have tn0 : Int.toNat 0 = 0 := rfl
  have tn1 : Int.toNat 1 = 1 := rfl
  have tn2 : Int.toNat 2 = 2 := rfl
  have tn3 : Int.toNat 3 = 3 := rfl
  have tn4 : Int.toNat 4 = 4 := rfl
  constructor
  · norm_num [damping]
  · rw [s8_eq]
    norm_num [sumSqInside, update, sweep, zeroTopBottom, zeroLeftRight,
      cellStep, laplacianAt, lapAndCount, lapStep, neighborOffsets, upd2,
      maskTrue, damping, waveSpeed, List.range_succ, tn0, tn1, tn2, tn3, tn4]

/-- C8, amended: with `damping < 1` and no excitation between steps, the sum
of squared heights over inside cells can strictly increase from one step to
the next: there is a constructed mask and an excitation sequence whose
reachable state gains sum-of-squares under one `update`. -/
theorem C8_thm :
    ∃ (m : ℕ → ℕ → Bool) (ops : List Op),
      damping < 1 ∧
        sumSqInside 5 3 (applyOps 5 3 (constructGrid m) ops) <
          sumSqInside 5 3 (update 5 3 (applyOps 5 3 (constructGrid m) ops)) := by
  refine ⟨maskTrue, [Op.excite ((2 : ℕ) : ℚ) ((1 : ℕ) : ℚ)],
    by norm_num [damping], ?_⟩
  have tn0 : Int.toNat 0 = 0 := rfl
  have tn1 : Int.toNat 1 = 1 := rfl
  have tn2 : Int.toNat 2 = 2 := rfl
  have tn3 : Int.toNat 3 = 3 := rfl
  have tn4 : Int.toNat 4 = 4 := rfl
  have h : applyOps 5 3 (constructGrid maskTrue)
      [Op.excite ((2 : ℕ) : ℚ) ((1 : ℕ) : ℚ)] = s8 := rfl
  rw [h, s8_eq]
  norm_num [sumSqInside, update, sweep, zeroTopBottom, zeroLeftRight,
    cellStep, laplacianAt, lapAndCount, lapStep, neighborOffsets, upd2,
    maskTrue, damping, waveSpeed, List.range_succ, tn0, tn1, tn2, tn3, tn4]

/-- C9: the boundary mask is fixed by construction — the constructed mask
holds exactly at the cells strictly inside the circle of radius `150` about
`(600,400)`, and no sequence of excitations and steps ever changes any mask
entry. -/
theorem C9_thm :
    (∀ y x : ℕ, (newWaveGrid.mask y x = true ↔
        ((x : ℚ) - 600) * ((x : ℚ) - 600) +
          ((y : ℚ) - 400) * ((y : ℚ) - 400) < 150 * 150)) ∧
      ∀ (W H : ℕ) (wg : WaveGrid) (ops : List Op) (a b : ℕ),
        (applyOps W H wg ops).mask a b = wg.mask a b := by
  constructor
  · intro y x
    show pointInShape _ _ = true ↔ _
    simp only [pointInShape, decide_eq_true_eq]
    norm_num [screenWidth, screenHeight, gridSize]
  · intro W H wg ops a b
    rw [applyOps_mask]

/-- Witness for C9: the circle-center cell and a one-step mask preservation,
both read off the main theorem. -/
theorem C9_witness :
    (newWaveGrid.mask 400 600 = true ↔
        (((600 : ℕ) : ℚ) - 600) * (((600 : ℕ) : ℚ) - 600) +
          (((400 : ℕ) : ℚ) - 400) * (((400 : ℕ) : ℚ) - 400) < 150 * 150) ∧
      (applyOps 3 3 (constructGrid maskTrue) [Op.step]).mask 0 0 =
        (constructGrid maskTrue).mask 0 0 :=
  ⟨C9_thm.1 400 600, C9_thm.2 3 3 (constructGrid maskTrue) [Op.step] 0 0⟩

/-- C10: an in-range excitation at a masked cell modifies exactly one cell:
it adds exactly `20` to the mapped current-height entry, leaves every other
current entry unchanged, and leaves the whole previous field and mask
untouched. -/
theorem C10_thm (W H : ℕ) (wg : WaveGrid) (mx my : ℚ) (gx gy : ℕ)
    (hgx : truncZero (mx / ((gridSize : ℕ) : ℚ)) = (gx : ℤ))
    (hgy : truncZero (my / ((gridSize : ℕ) : ℚ)) = (gy : ℤ))
    (hx : gx < W) (hy : gy < H) (hm : wg.mask gy gx = true) :
    (addWave W H wg mx my).current gy gx = wg.current gy gx + 20 ∧
      (∀ a b : ℕ, ¬(a = gy ∧ b = gx) →
        (addWave W H wg mx my).current a b = wg.current a b) ∧
      (addWave W H wg mx my).previous = wg.previous ∧
      (addWave W H wg mx my).mask = wg.mask := by
  have hcur := addWave_hit W H wg mx my gx gy hgx hgy hx hy hm
  refine ⟨?_, ?_, addWave_previous W H wg mx my, addWave_mask W H wg mx my⟩
  · rw [hcur, upd2_self]
  · intro a b hab
    rw [hcur]
    exact upd2_ne _ _ _ _ hab

/-- Witness for C10: excitation at cell `(2,1)` of a `5 × 5` all-masked
lattice leaves the previous field untouched. -/
theorem C10_witness :
    (truncZero (((1 : ℕ) : ℚ) / ((gridSize : ℕ) : ℚ)) = ((1 : ℕ) : ℤ) ∧
        truncZero (((2 : ℕ) : ℚ) / ((gridSize : ℕ) : ℚ)) = ((2 : ℕ) : ℤ) ∧
        (1 : ℕ) < 5 ∧ (2 : ℕ) < 5 ∧
        (constructGrid maskTrue).mask 2 1 = true) ∧
      (addWave 5 5 (constructGrid maskTrue) ((1 : ℕ) : ℚ)
          ((2 : ℕ) : ℚ)).previous = (constructGrid maskTrue).previous := by
  have hg : ((gridSize : ℕ) : ℚ) = 1 := by norm_num [gridSize]
  have ht1 : truncZero (((1 : ℕ) : ℚ) / ((gridSize : ℕ) : ℚ)) = ((1 : ℕ) : ℤ) := by
    rw [hg, div_one, truncZero_natCast]
  have ht2 : truncZero (((2 : ℕ) : ℚ) / ((gridSize : ℕ) : ℚ)) = ((2 : ℕ) : ℤ) := by
    rw [hg, div_one, truncZero_natCast]
  exact ⟨⟨ht1, ht2, by norm_num, by norm_num, rfl⟩,
    (C10_thm 5 5 (constructGrid maskTrue) ((1 : ℕ) : ℚ) ((2 : ℕ) : ℚ) 1 2 ht1
      ht2 (by norm_num) (by norm_num) rfl).2.2.1⟩

end GoWave
